import Mathlib

/-!
# Verification of the insight-trading-dashboard strategy engine

Shallow embedding of `backend/mt5_service/indicators.py` and
`backend/mt5_service/strategy_engine.py`.

Modelling conventions:
* Python `float` values are modelled as exact rationals (`ℚ`).
* A Python `List[Optional[float]]` indicator series is a `List (Option ℚ)`;
  `none` is the "undefined" (Python `None`) marker.
* Python list indexing `s[i]` (which supports negative wrap-around indices and
  raises `IndexError` out of range) is modelled by `pyIdx`; an `IndexError`
  crash is the outer `none` of an `Option` result.
* `math.sqrt` is not exactly representable on `ℚ`; it is modelled as an
  explicit function parameter `sqrtFn : ℚ → ℚ` threaded through
  `calculate_bollinger_bands` and the strategy runner.  Every theorem below is
  proved for an arbitrary `sqrtFn`, hence in particular for the mathematical
  square root.
* Python dicts built by repeated assignment are modelled as association lists
  with *prepending* insertion and first-match lookup (equivalent to
  last-write-wins dict semantics).
-/

namespace Insight

/-- Python list indexing `s[i]`: non-negative indices are direct, negative
indices wrap around from the end, anything else raises `IndexError`
(modelled as `none`). -/
def pyIdx {α : Type} (s : List α) (i : ℤ) : Option α :=
  if 0 ≤ i then s.get? i.toNat
  else if (-i) ≤ (s.length : ℤ) then s.get? (s.length - (-i).toNat)
  else none

/-! ## indicators.py -/

/-- `calculate_sma(data, period)` from `indicators.py`: the guard
`period > len(data) or period <= 0` yields an all-`None` list; otherwise entry
`i` is `None` for `i < period - 1` and `sum(data[i-period+1 : i+1]) / period`
for the rest.  The Python slice `data[i-period+1 : i+1]` is
`(data.drop (i + 1 - p)).take p`. -/
def calculate_sma (data : List ℚ) (period : ℤ) : List (Option ℚ) :=
  if (data.length : ℤ) < period ∨ period ≤ 0 then
    List.replicate data.length none
  else
    let p := period.toNat
    (List.range data.length).map (fun i =>
      if i < p - 1 then none
      else some (((data.drop (i + 1 - p)).take p).sum / (p : ℚ)))

/-- The loop body of `calculate_ema`: walks the remaining prices carrying the
enumeration index `i` and `prev_ema` (`none` until the SMA seed at
`i = period - 1`). -/
def emaGo (data : List ℚ) (p : ℕ) (k : ℚ) :
    ℕ → Option ℚ → List ℚ → List (Option ℚ)
  | _, _, [] => []
  | i, none, _price :: rest =>
    if p - 1 ≤ i then
      let seed := ((data.drop (i + 1 - p)).take p).sum / (p : ℚ)
      some seed :: emaGo data p k (i + 1) (some seed) rest
    else
      none :: emaGo data p k (i + 1) none rest
  | i, some prev, price :: rest =>
    let cur := (price - prev) * k + prev
    some cur :: emaGo data p k (i + 1) (some cur) rest

/-- The post-seed tail of the EMA loop: from a previous EMA value, fold the
remaining prices with `cur = (price - prev) * k + prev`.  `emaGo` with a
`some` state produces exactly this list (lemma `emaGo_some`). -/
def emaRun (k : ℚ) (prev : ℚ) : List ℚ → List ℚ
  | [] => []
  | price :: rest =>
    let cur := (price - prev) * k + prev
    cur :: emaRun k cur rest

/-- `calculate_ema(data, period)` from `indicators.py`: same degenerate guard
as SMA; otherwise seeded with the SMA of the first `period` values at index
`period - 1`, then `ema[i] = (price[i] - ema[i-1]) * k + ema[i-1]` with
`k = 2 / (period + 1)`. -/
def calculate_ema (data : List ℚ) (period : ℤ) : List (Option ℚ) :=
  if (data.length : ℤ) < period ∨ period ≤ 0 then
    List.replicate data.length none
  else
    emaGo data period.toNat (2 / ((period : ℚ) + 1)) 0 none data

/-- Consecutive deltas `closes[i] - closes[i-1]` of a list. -/
def diffs : List ℚ → List ℚ
  | [] => []
  | [_] => []
  | a :: b :: rest => (b - a) :: diffs (b :: rest)

/-- The RSI value produced from current average gain and loss:
`100` when the average loss is zero, else `100 - 100 / (1 + rs)` with
`rs = avg_gain / avg_loss`. -/
def rsiVal (g l : ℚ) : ℚ :=
  if l = 0 then 100 else 100 - 100 / (1 + g / l)

/-- The `for i in range(period+1, len(closes))` loop of `calculate_rsi`:
walks the remaining deltas applying Wilder's update
`avg = (avg * (period - 1) + current) / period` to the gain and loss
averages. -/
def rsiLoop (p : ℕ) : ℚ → ℚ → List ℚ → List (Option ℚ)
  | _, _, [] => []
  | g, l, ch :: rest =>
    let g' := (g * ((p : ℚ) - 1) + max ch 0) / (p : ℚ)
    let l' := (l * ((p : ℚ) - 1) + max (-ch) 0) / (p : ℚ)
    some (rsiVal g' l') :: rsiLoop p g' l' rest

/-- `calculate_rsi(closes, period)` from `indicators.py`: guard
`period >= len(closes) or period <= 0` yields all-`None`; the first `period`
entries are `None`; the initial average gain (loss) is the sum of the positive
parts (negative-part magnitudes) of the first `period` deltas divided by
`period`; entry `period` is `rsiVal` of those, and later entries come from
Wilder's recursive update over the remaining deltas. -/
def calculate_rsi (closes : List ℚ) (period : ℤ) : List (Option ℚ) :=
  if (closes.length : ℤ) ≤ period ∨ period ≤ 0 then
    List.replicate closes.length none
  else
    let p := period.toNat
    let ds := diffs closes
    let g0 := (((ds.take p).map (fun ch => max ch 0)).sum) / (p : ℚ)
    let l0 := (((ds.take p).map (fun ch => max (-ch) 0)).sum) / (p : ℚ)
    List.replicate p none ++ some (rsiVal g0 l0) :: rsiLoop p g0 l0 (ds.drop p)

/-- `calculate_bollinger_bands(data, period, std_dev)` from `indicators.py`:
middle band is the SMA; where it is defined, the population variance of the
trailing window `data[i-period+1 : i+1]` (sum of squared deviations divided by
`period`) feeds `sqrtFn` (modelling `math.sqrt`), and the upper/lower bands
are `mean ± sd * std_dev`.  Returned as the assoc list
`upper / middle / lower` mirroring the Python dict literal. -/
def calculate_bollinger_bands (sqrtFn : ℚ → ℚ) (data : List ℚ)
    (period : ℤ) (std_dev : ℚ) : List (String × List (Option ℚ)) :=
  let sma := calculate_sma data period
  let p := period.toNat
  let band : Bool → List (Option ℚ) := fun isUpper =>
    (List.range data.length).map (fun i =>
      match sma.get? i with
      | some (some mean) =>
        let window := (data.drop (i + 1 - p)).take p
        let variance := ((window.map (fun x => (x - mean) ^ 2)).sum) / (p : ℚ)
        let sd := sqrtFn variance
        if isUpper then some (mean + sd * std_dev) else some (mean - sd * std_dev)
      | _ => none)
  [("upper", band true), ("middle", sma), ("lower", band false)]

/-- Result of `detect_crossover`: Python strings `'up'` / `'down'`. -/
inductive Cross : Type
  | up
  | down
  deriving DecidableEq, Repr

/-- The body of `detect_crossover` once the four list accesses are done: the
outer `Option` layer of each argument is the possible `IndexError`; if all
four accesses succeed, the Python `any(v is None ...)` check and the strict
comparisons follow. -/
def crossStep (current1? current2? prev1? prev2? : Option (Option ℚ)) :
    Option (Option Cross) :=
  match current1?, current2?, prev1?, prev2? with
  | some current1, some current2, some prev1, some prev2 =>
    match current1, current2, prev1, prev2 with
    | some c1, some c2, some p1, some p2 =>
      if p1 < p2 ∧ c2 < c1 then some (some Cross.up)
      else if p2 < p1 ∧ c1 < c2 then some (some Cross.down)
      else some none
    | _, _, _, _ => some none
  | _, _, _, _ => none

/-- `detect_crossover(series1, series2, index)` from `indicators.py`.
The outer `Option` models an `IndexError` crash of the Python list accesses;
the inner `Option Cross` is the Python return value (`None` / `'up'` /
`'down'`). -/
def detect_crossover (series1 series2 : List (Option ℚ)) (index : ℤ) :
    Option (Option Cross) :=
  if index < 1 then some none
  else
    crossStep (pyIdx series1 index) (pyIdx series2 index)
      (pyIdx series1 (index - 1)) (pyIdx series2 (index - 1))

/-! ## strategy_engine.py -/

/-- `TradeDirection` enum. -/
inductive TradeDirection : Type
  | BUY
  | SELL
  deriving DecidableEq, Repr

/-- The `SignalResult` dataclass: `triggered`, optional `direction`, `reason`
and the strategy stamp (defaults `''`). -/
structure SignalResult : Type where
  triggered : Bool
  direction : Option TradeDirection := none
  reason : String := ""
  strategy_id : String := ""
  strategy_name : String := ""
  deriving DecidableEq, Repr

/-- One indicator spec dict from a strategy's `indicators` list:
`{'type': ..., 'period': ...}` with optional `period` / `std_dev`. -/
structure IndicatorSpec : Type where
  type : String
  period : Option ℤ := none
  std_dev : Option ℚ := none
  deriving DecidableEq, Repr

/-- One rule dict: `condition`, `ind1`, optional `ind2`, `direction`, optional
`value`.  `direction` is present on every rule of the built-in catalog; the
rule evaluator reads it only when a comparison fires. -/
structure Rule : Type where
  condition : String
  ind1 : String
  ind2 : Option String := none
  direction : TradeDirection
  value : Option ℚ := none
  deriving DecidableEq, Repr

/-- One strategy dict of `BUILT_IN_STRATEGIES`. -/
structure Strategy : Type where
  id : String
  name : String
  indicators : List IndicatorSpec
  rules : List Rule
  deriving DecidableEq, Repr

/-- The computed-indicator map `indicators`: key `"{type}_{period}"` to the
dict of named sub-series.  Prepend-insertion with first-match lookup models
Python dict overwrite semantics. -/
abbrev IndMap : Type := List (String × List (String × List (Option ℚ)))

/-- First entry of `BUILT_IN_STRATEGIES` (inline dict in the Python list
literal). -/
def smaTrendStrategy : Strategy :=
  { id := "11111111-1111-1111-1111-111111111111"
    name := "SMA Trend Strategy"
    indicators := [{ type := "SMA", period := some 20 }]
    rules :=
      [ { condition := "greater_than", ind1 := "CLOSE", ind2 := some "SMA_20",
          direction := TradeDirection.BUY }
      , { condition := "less_than", ind1 := "CLOSE", ind2 := some "SMA_20",
          direction := TradeDirection.SELL } ] }

/-- Second entry of `BUILT_IN_STRATEGIES` (inline dict in the Python list
literal). -/
def emaTrendStrategy : Strategy :=
  { id := "22222222-2222-2222-2222-222222222222"
    name := "EMA Trend Strategy"
    indicators := [{ type := "EMA", period := some 20 }]
    rules :=
      [ { condition := "greater_than", ind1 := "CLOSE", ind2 := some "EMA_20",
          direction := TradeDirection.BUY }
      , { condition := "less_than", ind1 := "CLOSE", ind2 := some "EMA_20",
          direction := TradeDirection.SELL } ] }

/-- `BUILT_IN_STRATEGIES` from `strategy_engine.py`. -/
def BUILT_IN_STRATEGIES : List Strategy :=
  [smaTrendStrategy, emaTrendStrategy]

/-- `calculate_indicator(indicator_type, closes, params)`: dispatches on the
type string, with the Python parameter defaults (`period` 20 / RSI 14,
`std_dev` 2); unknown types give one all-`None` `main` series. -/
def calculate_indicator (sqrtFn : ℚ → ℚ) (indicator_type : String)
    (closes : List ℚ) (params : IndicatorSpec) :
    List (String × List (Option ℚ)) :=
  if indicator_type = "SMA" then
    [("main", calculate_sma closes (params.period.getD 20))]
  else if indicator_type = "EMA" then
    [("main", calculate_ema closes (params.period.getD 20))]
  else if indicator_type = "RSI" then
    [("main", calculate_rsi closes (params.period.getD 14))]
  else if indicator_type = "BOLLINGER_BANDS" then
    calculate_bollinger_bands sqrtFn closes (params.period.getD 20)
      (params.std_dev.getD 2)
  else
    [("main", List.replicate closes.length none)]

/-- Helper for `pyStartsWith`: does the first character list start with the
second? -/
def charsStartWith : List Char → List Char → Bool
  | _, [] => true
  | [], _ :: _ => false
  | c :: cs, p :: ps => c = p && charsStartWith cs ps

/-- Python `s.startswith(pre)`. -/
def pyStartsWith (s pre : String) : Bool := charsStartWith s.data pre.data

/-- Helper for `pySplit`: split a character list at every separator
occurrence.  Always returns at least one (possibly empty) part, like Python's
`str.split` with an explicit separator. -/
def splitChars (sep : Char) : List Char → List (List Char)
  | [] => [[]]
  | c :: cs =>
    let rest := splitChars sep cs
    if c = sep then [] :: rest
    else
      match rest with
      | [] => [[c]]
      | r :: rs => (c :: r) :: rs

/-- Python `s.split(sep)` for a one-character separator (the engine only ever
splits on `'_'`). -/
def pySplit (sep : Char) (s : String) : List String :=
  (splitChars sep s.data).map String.mk

/-- `get_series(key, indicators, closes)`: `'CLOSE'` gives the raw closes
(every value present, hence wrapped in `some`); then `key` with a `'main'`
sub-series; then the `BB_*` fallback, which splits the key on `'_'` and looks
the part after the prefix up inside `BOLLINGER_BANDS_20`; otherwise `None`. -/
def get_series (key : String) (indicators : IndMap) (closes : List ℚ) :
    Option (List (Option ℚ)) :=
  if key = "CLOSE" then some (closes.map some)
  else
    match (List.lookup key indicators).bind (fun sub => List.lookup "main" sub) with
    | some s => some s
    | none =>
      if pyStartsWith key "BB_" then
        let subkey := (pySplit '_' key).getD 1 ""
        match (List.lookup "BOLLINGER_BANDS_20" indicators).bind
            (fun sub => List.lookup subkey sub) with
        | some s => some s
        | none => none
      else none

/-- Renders a rational with two decimal places, modelling Python's `f"{v:.2f}"`
on the exact value (rounding to the nearest hundredth, half away from zero at
the midpoint; the reason strings of the claims never hit a midpoint). -/
def fmt2 (q : ℚ) : String :=
  let c : ℤ := round (q * 100)
  let sign := if c < 0 then "-" else ""
  let a := c.natAbs
  sign ++ toString (a / 100) ++ "." ++
    (if a % 100 < 10 then "0" else "") ++ toString (a % 100)

/-- The final comparison step of `evaluate_rule` for `greater_than` /
`less_than`, once `current_value` and `target_value` are known. -/
def mkCompare (rule : Rule) (current_value target_value : ℚ) : SignalResult :=
  if rule.condition = "greater_than" ∧ target_value < current_value then
    { triggered := true, direction := some rule.direction
      reason := rule.ind1 ++ " (" ++ fmt2 current_value ++ ") > " ++ fmt2 target_value }
  else if rule.condition = "less_than" ∧ current_value < target_value then
    { triggered := true, direction := some rule.direction
      reason := rule.ind1 ++ " (" ++ fmt2 current_value ++ ") < " ++ fmt2 target_value }
  else
    { triggered := false, reason := "Condition not met" }

/-- `evaluate_rule(rule, indicators, closes)` from `strategy_engine.py`.
The outer `Option` models a Python crash (`IndexError` of a list access, or
`KeyError` on `rule['ind2']` in the crossover branch).  The Python truthiness
tests are modelled exactly: `rule.get('ind2')` is falsy for an absent or empty
key, and `if series2:` is falsy for `None` or an empty list. -/
def evaluate_rule (rule : Rule) (indicators : IndMap) (closes : List ℚ) :
    Option SignalResult :=
  let latest_idx : ℤ := (closes.length : ℤ) - 1
  if rule.condition = "crossover" ∨ rule.condition = "crossunder" then
    match rule.ind2 with
    | none => none
    | some k2 =>
      match get_series rule.ind1 indicators closes,
            get_series k2 indicators closes with
      | some series1, some series2 =>
        match detect_crossover series1 series2 latest_idx with
        | none => none
        | some cross =>
          if rule.condition = "crossover" ∧ cross = some Cross.up then
            some { triggered := true, direction := some rule.direction
                   reason := rule.ind1 ++ " crossed above " ++ k2 }
          else if rule.condition = "crossunder" ∧ cross = some Cross.down then
            some { triggered := true, direction := some rule.direction
                   reason := rule.ind1 ++ " crossed below " ++ k2 }
          else some { triggered := false, reason := "No crossover detected" }
      | _, _ => some { triggered := false, reason := "Missing indicator data" }
  else if rule.condition = "greater_than" ∨ rule.condition = "less_than" then
    let series? := get_series rule.ind1 indicators closes
    let series2? : Option (List (Option ℚ)) :=
      match rule.ind2 with
      | some k2 =>
        if k2 ≠ "" ∧ k2 ≠ "CLOSE" then get_series k2 indicators closes else none
      | none => none
    match series? with
    | none => some { triggered := false, reason := "Missing indicator data" }
    | some series =>
      match pyIdx series latest_idx with
      | none => none
      | some none => some { triggered := false, reason := "Missing indicator data" }
      | some (some current_value) =>
        match series2? with
        | some series2 =>
          if series2.isEmpty then
            some (mkCompare rule current_value (rule.value.getD 0))
          else
            match pyIdx series2 latest_idx with
            | none => none
            | some none =>
              some { triggered := false, reason := "Missing indicator2 data" }
            | some (some target_value) =>
              some (mkCompare rule current_value target_value)
        | none => some (mkCompare rule current_value (rule.value.getD 0))
  else
    some { triggered := false, reason := "Unknown condition" }

/-- The indicator map a strategy builds:
`indicators[f"{type}_{period or 'default'}"] = calculate_indicator(...)`,
prepending (dict overwrite) for each spec in order. -/
def buildIndicators (sqrtFn : ℚ → ℚ) (strategy : Strategy) (closes : List ℚ) :
    IndMap :=
  strategy.indicators.foldl
    (fun acc ind =>
      (ind.type ++ "_" ++ (match ind.period with
        | some p => toString p
        | none => "default"),
        calculate_indicator sqrtFn ind.type closes ind) :: acc)
    []

/-- The rule loop of `run_strategy`: evaluates each rule, keeps the triggered
results and stamps them with the strategy's id and name.  A crash of
`evaluate_rule` propagates. -/
def evalRules (strategy : Strategy) (indicators : IndMap) (closes : List ℚ) :
    Option (List SignalResult) :=
  strategy.rules.foldlM
    (fun acc rule => do
      let result ← evaluate_rule rule indicators closes
      if result.triggered then
        pure (acc ++ [{ result with strategy_id := strategy.id
                                    strategy_name := strategy.name }])
      else
        pure acc)
    []

/-- `run_strategy(strategy, closes)`: fewer than 50 closes is an immediate
empty result; otherwise compute the indicator map and evaluate the rules. -/
def run_strategy (sqrtFn : ℚ → ℚ) (strategy : Strategy) (closes : List ℚ) :
    Option (List SignalResult) :=
  if closes.length < 50 then some []
  else evalRules strategy (buildIndicators sqrtFn strategy closes) closes

/-- `run_all_strategies(closes)`: concatenates each built-in strategy's
results in catalog order. -/
def run_all_strategies (sqrtFn : ℚ → ℚ) (closes : List ℚ) :
    Option (List SignalResult) :=
  BUILT_IN_STRATEGIES.foldlM
    (fun acc strategy => do
      let results ← run_strategy sqrtFn strategy closes
      pure (acc ++ results))
    []

/-- `calculate_risk_levels(entry_price, direction)`: 2% risk, 4% reward. -/
def calculate_risk_levels (entry_price : ℚ) (direction : TradeDirection) :
    ℚ × ℚ :=
  if direction = TradeDirection.BUY then
    (entry_price * (1 - 2/100), entry_price * (1 + 4/100))
  else
    (entry_price * (1 + 2/100), entry_price * (1 - 4/100))

/-! ## General lemmas -/

theorem rangeMap_get? {α : Type} (f : ℕ → α) (n i : ℕ) (h : i < n) :
    ((List.range n).map f).get? i = some (f i) := by
  simp [List.get?_eq_getElem?, List.getElem?_map, List.getElem?_range h]

theorem pyIdx_ofNonneg {α : Type} (s : List α) (i : ℤ) (h : 0 ≤ i) :
    pyIdx s i = s.get? i.toNat := by
  simp [pyIdx, h]

/-! ## Claim C1: the literal close-price operand token

The spec claims the token is the lower-case `"close"`.  The code compares
against `'CLOSE'`; resolving `"close"` against an indicator map that does not
happen to contain that key fails. -/

/-- C1 counterexample: with the empty indicator map and the closes list
`[1]`, resolving the key `"close"` yields an absent resolution, not the raw
price series — the claimed resolution of the lower-case token fails. -/
theorem C1_close_counterexample :
    get_series "close" ([] : IndMap) [1] = none ∧
    get_series "close" ([] : IndMap) [1] ≠ some [some 1] := by
  refine ⟨by decide, by decide⟩

/-- C1 (amended): the case-sensitive literal operand token is the upper-case
`"CLOSE"`: for every closes list and every indicator map, resolving `"CLOSE"`
returns the raw price series. -/
theorem C1_CLOSE_resolves_to_closes :
    ∀ (indicators : IndMap) (closes : List ℚ),
      get_series "CLOSE" indicators closes = some (closes.map some) := by
  intro indicators closes
  simp [get_series]

/-! ## Claim C5: crossover detection -/

/-- C5: `detect_crossover` characterised at every in-range index.  When
`index < 1` it returns the Python `None` (`some none`, no crash).  For
`1 ≤ index` and the four accessed entries present, it returns `'up'` iff
`prev1 < prev2` and `current1 > current2`, `'down'` iff the mirror strict
inequalities hold, `None` whenever one of the four values is the undefined
marker, and `None` whenever either pair is exactly equal — equality never
counts as a cross. -/
theorem detect_crossover_spec (series1 series2 : List (Option ℚ)) (index : ℤ) :
    (index < 1 → detect_crossover series1 series2 index = some none) ∧
    (1 ≤ index →
      ∀ oc1 oc2 op1 op2 : Option ℚ,
        series1.get? index.toNat = some oc1 →
        series2.get? index.toNat = some oc2 →
        series1.get? (index.toNat - 1) = some op1 →
        series2.get? (index.toNat - 1) = some op2 →
        ((op1 = none ∨ op2 = none ∨ oc1 = none ∨ oc2 = none) →
          detect_crossover series1 series2 index = some none) ∧
        (∀ c1 c2 p1 p2 : ℚ, oc1 = some c1 → oc2 = some c2 →
            op1 = some p1 → op2 = some p2 →
          (detect_crossover series1 series2 index = some (some Cross.up) ↔
            p1 < p2 ∧ c2 < c1) ∧
          (detect_crossover series1 series2 index = some (some Cross.down) ↔
            p2 < p1 ∧ c1 < c2) ∧
          ((p1 = p2 ∨ c1 = c2) →
            detect_crossover series1 series2 index = some none))) := by
  constructor
  · intro h
    unfold detect_crossover
    rw [if_pos h]
  · intro h1 oc1 oc2 op1 op2 g1 g2 g3 g4
    have h0 : (0:ℤ) ≤ index := by omega
    have h0' : (0:ℤ) ≤ index - 1 := by omega
    have ht : (index - 1).toNat = index.toNat - 1 := by omega
    have e : detect_crossover series1 series2 index
        = crossStep (some oc1) (some oc2) (some op1) (some op2) := by
      unfold detect_crossover
      rw [if_neg (by omega), pyIdx_ofNonneg series1 index h0,
          pyIdx_ofNonneg series2 index h0, pyIdx_ofNonneg series1 _ h0',
          pyIdx_ofNonneg series2 _ h0', ht, g1, g2, g3, g4]
    constructor
    · intro hund
      rw [e]
      rcases oc1 with _ | c1 <;> rcases oc2 with _ | c2 <;>
        rcases op1 with _ | p1 <;> rcases op2 with _ | p2 <;>
        first
        | rfl
        | simp_all
    · rintro c1 c2 p1 p2 rfl rfl rfl rfl
      have e2 : detect_crossover series1 series2 index =
          if p1 < p2 ∧ c2 < c1 then some (some Cross.up)
          else if p2 < p1 ∧ c1 < c2 then some (some Cross.down)
          else some none := by rw [e]; rfl
      rw [e2]
      refine ⟨?_, ?_, ?_⟩
      · constructor
        · intro hres
          split_ifs at hres with i1 i2
          · exact i1
          · simp at hres
          · simp at hres
        · intro hcond
          rw [if_pos hcond]
      · constructor
        · intro hres
          split_ifs at hres with i1 i2
          · simp at hres
          · exact i2
          · simp at hres
        · intro hcond
          rw [if_neg (by rintro ⟨x, y⟩; rcases hcond with ⟨a, b⟩; linarith),
              if_pos hcond]
      · rintro (rfl | rfl)
        · rw [if_neg (by rintro ⟨x, _⟩; exact lt_irrefl _ x),
              if_neg (by rintro ⟨x, _⟩; exact lt_irrefl _ x)]
        · rw [if_neg (by rintro ⟨_, y⟩; exact lt_irrefl _ y),
              if_neg (by rintro ⟨_, y⟩; exact lt_irrefl _ y)]

/-- C5 witness: at `series1 = [1, 3]`, `series2 = [2, 2]`, `index = 1` the
strict upward crossing fires. -/
theorem detect_crossover_spec_witness :
    detect_crossover [some 1, some 3] [some 2, some 2] 1 = some (some Cross.up) := by
  have h := (detect_crossover_spec [some 1, some 3] [some 2, some 2] 1).2
    (by norm_num) (some 3) (some 2) (some 1) (some 2) rfl rfl rfl rfl
  exact ((h.2 3 2 1 2 rfl rfl rfl rfl).1).mpr (by norm_num)

/-! ## Claim C6: exponential moving average -/

theorem emaGo_some (data : List ℚ) (p : ℕ) (k : ℚ) :
    ∀ (rest : List ℚ) (i : ℕ) (prev : ℚ),
      emaGo data p k i (some prev) rest = (emaRun k prev rest).map some := by
  intro rest
  induction rest with
  | nil => intro i prev; simp [emaGo, emaRun]
  | cons price rs ih => intro i prev; simp [emaGo, emaRun, ih]

theorem emaGo_length (data : List ℚ) (p : ℕ) (k : ℚ) :
    ∀ (rest : List ℚ) (i : ℕ) (st : Option ℚ),
      (emaGo data p k i st rest).length = rest.length := by
  intro rest
  induction rest with
  | nil => intro i st; cases st <;> simp [emaGo]
  | cons price rs ih =>
    intro i st
    cases st with
    | none =>
      rw [emaGo]
      split <;> simp [ih]
    | some prev => simp [emaGo, ih]

theorem emaGo_none_upto (data : List ℚ) (p : ℕ) (k : ℚ) (hp : 1 ≤ p)
    (hlen : p ≤ data.length) :
    ∀ j, j ≤ p - 1 →
      emaGo data p k (p - 1 - j) none (data.drop (p - 1 - j))
        = List.replicate j none
          ++ emaGo data p k (p - 1) none (data.drop (p - 1)) := by
  intro j
  induction j with
  | zero => intro _; simp
  | succ j ih =>
    intro hj
    have hilen : p - 1 - (j + 1) < data.length := by omega
    have hdrop : data.drop (p - 1 - (j + 1))
        = data.get ⟨p - 1 - (j + 1), hilen⟩ :: data.drop (p - 1 - (j + 1) + 1) :=
      List.drop_eq_get_cons hilen
    rw [hdrop, emaGo, if_neg (by omega),
        show p - 1 - (j + 1) + 1 = p - 1 - j by omega, ih (by omega),
        List.replicate_succ, List.cons_append]

theorem emaGo_seed (data : List ℚ) (p : ℕ) (k : ℚ) (hp : 1 ≤ p)
    (hlen : p ≤ data.length) :
    emaGo data p k (p - 1) none (data.drop (p - 1))
      = some ((data.take p).sum / (p : ℚ))
        :: (emaRun k ((data.take p).sum / (p : ℚ)) (data.drop p)).map some := by
  have h1 : p - 1 < data.length := by omega
  rw [List.drop_eq_get_cons h1, emaGo, if_pos (le_refl _),
      show p - 1 + 1 - p = 0 by omega, show p - 1 + 1 = p by omega,
      List.drop_zero]
  dsimp only
  rw [emaGo_some]

theorem calculate_ema_decomp (data : List ℚ) (period : ℤ)
    (hp : 0 < period) (hle : period ≤ (data.length : ℤ)) :
    calculate_ema data period
      = List.replicate (period.toNat - 1) none
        ++ some ((data.take period.toNat).sum / (period.toNat : ℚ))
          :: (emaRun (2 / ((period : ℚ) + 1))
                ((data.take period.toNat).sum / (period.toNat : ℚ))
                (data.drop period.toNat)).map some := by
  have hguard : ¬ ((data.length : ℤ) < period ∨ period ≤ 0) := by omega
  have hp1 : 1 ≤ period.toNat := by omega
  have hpn : period.toNat ≤ data.length := by omega
  unfold calculate_ema
  rw [if_neg hguard]
  have h := emaGo_none_upto data period.toNat (2 / ((period : ℚ) + 1)) hp1 hpn
    (period.toNat - 1) (le_refl _)
  rw [show period.toNat - 1 - (period.toNat - 1) = 0 by omega, List.drop_zero] at h
  rw [h, emaGo_seed data period.toNat _ hp1 hpn]

theorem emaRun_step (k : ℚ) :
    ∀ (rest : List ℚ) (prev : ℚ) (j : ℕ) (a price : ℚ),
      (emaRun k prev rest).get? j = some a →
      rest.get? (j + 1) = some price →
      (emaRun k prev rest).get? (j + 1) = some ((price - a) * k + a) := by
  intro rest
  induction rest with
  | nil => intro prev j a price h _; simp [emaRun] at h
  | cons r rs ih =>
    intro prev j a price h hrest
    cases j with
    | zero =>
      simp only [emaRun, List.get?] at h hrest ⊢
      cases rs with
      | nil => simp at hrest
      | cons s ss =>
        simp only [List.get?] at hrest
        injection h with h
        injection hrest with hrest
        simp only [emaRun, List.get?]
        rw [← h, ← hrest]
    | succ j =>
      simp only [emaRun, List.get?] at h hrest ⊢
      exact ih _ j a price h hrest

/-- C6: for `0 < period <= len(data)` the first defined EMA entry is at index
`period - 1` and equals the SMA of the first `period` values; earlier entries
are undefined; each later entry satisfies
`ema[i] = (price[i] - ema[i-1]) * k + ema[i-1]` with `k = 2 / (period + 1)`;
for `period <= 0` or `period > len(data)` the whole output is undefined. -/
theorem calculate_ema_spec (data : List ℚ) (period : ℤ) :
    (0 < period → period ≤ (data.length : ℤ) →
      (∀ i, i < period.toNat - 1 →
        (calculate_ema data period).get? i = some none) ∧
      ((calculate_ema data period).get? (period.toNat - 1)
        = some (some ((data.take period.toNat).sum / (period.toNat : ℚ)))) ∧
      (∀ i, period.toNat ≤ i → i < data.length →
        ∀ ePrev price,
          (calculate_ema data period).get? (i - 1) = some (some ePrev) →
          data.get? i = some price →
          (calculate_ema data period).get? i
            = some (some ((price - ePrev) * (2 / ((period : ℚ) + 1)) + ePrev)))) ∧
    ((period ≤ 0 ∨ (data.length : ℤ) < period) →
      calculate_ema data period = List.replicate data.length none) := by
  constructor
  · intro hp hle
    have hp1 : 1 ≤ period.toNat := by omega
    have hpn : period.toNat ≤ data.length := by omega
    have hd := calculate_ema_decomp data period hp hle
    have hrl : (List.replicate (period.toNat - 1) (none : Option ℚ)).length
        = period.toNat - 1 := List.length_replicate _ _
    refine ⟨?_, ?_, ?_⟩
    · intro i hi
      rw [hd, List.get?_append (by rw [hrl]; exact hi), List.get?_eq_getElem?,
          List.getElem?_replicate, if_pos hi]
    · rw [hd, List.get?_append_right (by rw [hrl]), hrl, Nat.sub_self]
      rfl
    · intro i hip hilen ePrev price hprev hpricei
      rcases Nat.eq_or_lt_of_le hip with heq | hlt
      · subst heq
        rw [hd, List.get?_append_right (by omega), hrl,
            show period.toNat - 1 - (period.toNat - 1) = 0 by omega,
            List.get?_cons_zero] at hprev
        injection hprev with hprev
        injection hprev with hprev
        have hdropg : data.drop period.toNat
            = data.get ⟨period.toNat, hilen⟩ :: data.drop (period.toNat + 1) :=
          List.drop_eq_get_cons hilen
        have hpg : data.get ⟨period.toNat, hilen⟩ = price := by
          rw [List.get?_eq_get hilen] at hpricei
          injection hpricei
        rw [hd, List.get?_append_right (by omega), hrl,
            show period.toNat - (period.toNat - 1) = 0 + 1 by omega,
            List.get?_cons_succ, List.get?_map, hdropg, hpg]
        rw [show emaRun (2 / ((period:ℚ) + 1))
              ((data.take period.toNat).sum / (period.toNat : ℚ))
              (price :: data.drop (period.toNat + 1))
            = ((price - (data.take period.toNat).sum / (period.toNat : ℚ))
                  * (2 / ((period:ℚ) + 1))
                + (data.take period.toNat).sum / (period.toNat : ℚ))
              :: emaRun (2 / ((period:ℚ) + 1))
                  ((price - (data.take period.toNat).sum / (period.toNat : ℚ))
                      * (2 / ((period:ℚ) + 1))
                    + (data.take period.toNat).sum / (period.toNat : ℚ))
                  (data.drop (period.toNat + 1)) from rfl]
        rw [List.get?_cons_zero, hprev]
        rfl
      · rw [hd, List.get?_append_right (by omega), hrl,
            show i - 1 - (period.toNat - 1) = (i - period.toNat - 1) + 1 by omega,
            List.get?_cons_succ, List.get?_map] at hprev
        have hprev2 : (emaRun (2 / ((period:ℚ) + 1))
            ((data.take period.toNat).sum / (period.toNat : ℚ))
            (data.drop period.toNat)).get? (i - period.toNat - 1) = some ePrev := by
          rcases hh : (emaRun (2 / ((period:ℚ) + 1))
              ((data.take period.toNat).sum / (period.toNat : ℚ))
              (data.drop period.toNat)).get? (i - period.toNat - 1) with _ | v
          · rw [hh] at hprev
            simp at hprev
          · rw [hh] at hprev
            simp at hprev
            rw [hprev]
        have hrest : (data.drop period.toNat).get? ((i - period.toNat - 1) + 1)
            = some price := by
          rw [List.get?_drop, show period.toNat + (i - period.toNat - 1 + 1) = i by omega]
          exact hpricei
        have hstep := emaRun_step (2 / ((period:ℚ) + 1)) (data.drop period.toNat)
          ((data.take period.toNat).sum / (period.toNat : ℚ))
          (i - period.toNat - 1) ePrev price hprev2 hrest
        rw [hd, List.get?_append_right (by omega), hrl,
            show i - (period.toNat - 1) = (i - period.toNat - 1) + 1 + 1 by omega,
            List.get?_cons_succ, List.get?_map, hstep]
        rfl
  · intro h
    unfold calculate_ema
    rw [if_pos (by omega)]

/-- C6 witness: for `data = [1, 2, 3, 4]`, `period = 2`: undefined at 0,
seeded with `3/2` at index 1, recurrence value `5/2` at index 2; period 0 on
`[5]` gives the all-undefined output. -/
theorem calculate_ema_spec_witness :
    (calculate_ema [1, 2, 3, 4] 2).get? 0 = some none ∧
    (calculate_ema [1, 2, 3, 4] 2).get? 1 = some (some (3/2)) ∧
    (calculate_ema [1, 2, 3, 4] 2).get? 2 = some (some (5/2)) ∧
    calculate_ema [5] 0 = List.replicate 1 none := by
  obtain ⟨h1, h2, h3⟩ := (calculate_ema_spec [1, 2, 3, 4] 2).1 (by decide) (by decide)
  have e2 : (calculate_ema [1, 2, 3, 4] 2).get? 1 = some (some (3/2)) := by
    have h2' := h2
    simp only [show Int.toNat 2 = 2 from rfl] at h2'
    norm_num at h2'
    rw [List.get?_eq_getElem?]
    exact h2'
  have e3 := h3 2 (by decide) (by decide) (3/2) 3 e2 rfl
  norm_num at e3
  rw [List.get?_eq_getElem?]
  exact ⟨h1 0 (by decide), e2, e3, (calculate_ema_spec [5] 0).2 (Or.inl (by decide))⟩

/-! ## Claim C7: simple moving average -/

/-- C7: `calculate_sma` preserves length; for `0 < period ≤ len(data)` an
entry is the undefined marker exactly when its index is below `period - 1`,
and every other entry is the arithmetic mean of the trailing window of
`period` values ending at that index; for `period ≤ 0` or `period > len` the
whole output is undefined. -/
theorem calculate_sma_spec (data : List ℚ) (period : ℤ) :
    ((calculate_sma data period).length = data.length) ∧
    (0 < period → period ≤ (data.length : ℤ) →
      (∀ i, i < data.length →
        ((calculate_sma data period).get? i = some none ↔ i < period.toNat - 1)) ∧
      (∀ i, period.toNat - 1 ≤ i → i < data.length →
        ∃ w : List ℚ, w = (data.drop (i + 1 - period.toNat)).take period.toNat ∧
          w.length = period.toNat ∧
          (calculate_sma data period).get? i
            = some (some (w.sum / (period.toNat : ℚ))))) ∧
    ((period ≤ 0 ∨ (data.length : ℤ) < period) →
      calculate_sma data period = List.replicate data.length none) := by
  refine ⟨?_, ?_, ?_⟩
  · unfold calculate_sma
    split <;> simp
  · intro hp hle
    have hguard : ¬ ((data.length : ℤ) < period ∨ period ≤ 0) := by omega
    have hp1 : 1 ≤ period.toNat := by omega
    have hpn : period.toNat ≤ data.length := by omega
    constructor
    · intro i hi
      unfold calculate_sma
      rw [if_neg hguard, rangeMap_get? _ _ _ hi]
      constructor
      · intro he
        by_contra hn
        rw [if_neg hn] at he
        simp at he
      · intro hlt
        rw [if_pos hlt]
    · intro i h1 h2
      refine ⟨_, rfl, ?_, ?_⟩
      · rw [List.length_take, List.length_drop]
        omega
      · unfold calculate_sma
        rw [if_neg hguard, rangeMap_get? _ _ _ h2, if_neg (by omega)]
  · intro h
    unfold calculate_sma
    rw [if_pos (by omega)]

/-- C7 witness: for `data = [1, 2, 3, 4]`, `period = 2` the leading entry is
undefined, and `period = 0` on `[5]` gives the all-undefined output. -/
theorem calculate_sma_spec_witness :
    (calculate_sma [1, 2, 3, 4] 2).get? 0 = some none ∧
    calculate_sma [5] 0 = List.replicate 1 none := by
  constructor
  · exact (((calculate_sma_spec [1, 2, 3, 4] 2).2.1 (by decide)
      (by decide)).1 0 (by decide)).mpr (by decide)
  · exact (calculate_sma_spec [5] 0).2.2 (Or.inl (by decide))

/-! ## Claim C8: Bollinger bands -/

/-- C8: the Bollinger result is the `upper`/`middle`/`lower` dict with the
middle band literally `calculate_sma`; at every index where the middle band is
defined with mean `m`, the upper and lower entries are `m + sd * multiplier`
and `m - sd * multiplier` where `sd` is `math.sqrt` (an arbitrary `sqrtFn`)
of the population variance — the sum of squared deviations over the trailing
window divided by `period`, not `period - 1` — hence the bands are symmetric
around the middle; where the middle band is undefined both bands are
undefined. -/
theorem calculate_bollinger_bands_spec (sqrtFn : ℚ → ℚ) (data : List ℚ)
    (period : ℤ) (std_dev : ℚ) :
    ∃ upper lower : List (Option ℚ),
      calculate_bollinger_bands sqrtFn data period std_dev
        = [("upper", upper), ("middle", calculate_sma data period),
           ("lower", lower)] ∧
      upper.length = data.length ∧ lower.length = data.length ∧
      ∀ i, i < data.length →
        (∀ m, (calculate_sma data period).get? i = some (some m) →
          ∃ sd, sd = sqrtFn ((((data.drop (i + 1 - period.toNat)).take
                    period.toNat).map (fun x => (x - m) ^ 2)).sum
                  / (period.toNat : ℚ)) ∧
            upper.get? i = some (some (m + sd * std_dev)) ∧
            lower.get? i = some (some (m - sd * std_dev)) ∧
            (m + sd * std_dev) - m = m - (m - sd * std_dev)) ∧
        ((calculate_sma data period).get? i = some none →
          upper.get? i = some none ∧ lower.get? i = some none) := by
  refine ⟨_, _, rfl, by simp, by simp, ?_⟩
  intro i hi
  constructor
  · intro m hm
    refine ⟨_, rfl, ?_, ?_, by ring⟩
    · dsimp only
      rw [rangeMap_get? _ _ _ hi, hm]
      rfl
    · dsimp only
      rw [rangeMap_get? _ _ _ hi, hm]
      rfl
  · intro hm
    constructor
    · dsimp only
      rw [rangeMap_get? _ _ _ hi, hm]
    · dsimp only
      rw [rangeMap_get? _ _ _ hi, hm]

/-- C8 witness: constant data `[2, 2]`, period 2, multiplier 3: the window
variance is 0, so both bands at index 1 equal the middle value 2. -/
theorem calculate_bollinger_bands_spec_witness :
    (calculate_sma [2, 2] 2).get? 1 = some (some 2) ∧
    ∃ upper lower : List (Option ℚ),
      calculate_bollinger_bands id [2, 2] 2 3
        = [("upper", upper), ("middle", calculate_sma [2, 2] 2),
           ("lower", lower)] ∧
      upper.get? 1 = some (some 2) ∧ lower.get? 1 = some (some 2) := by
  have hm : (calculate_sma [2, 2] 2).get? 1 = some (some 2) := by
    simp [calculate_sma, List.range_succ]
  obtain ⟨u, l, heq, _, _, hpt⟩ := calculate_bollinger_bands_spec id [2, 2] 2 3
  obtain ⟨sd, hsd, hu, hl, _⟩ := (hpt 1 (by decide)).1 2 hm
  have hsd0 : sd = 0 := by
    rw [hsd]
    simp only [show Int.toNat 2 = 2 from rfl]
    norm_num
  refine ⟨hm, u, l, heq, ?_, ?_⟩
  · rw [hu, hsd0]
    norm_num
  · rw [hl, hsd0]
    norm_num

/-! ## Claim C9: insufficient history is a no-op -/

/-- C9: for every strategy and fewer than 50 closes, `run_strategy` returns
the empty result list (a successful, non-crashing evaluation), regardless of
the price values. -/
theorem run_strategy_insufficient_history :
    ∀ (sqrtFn : ℚ → ℚ) (strategy : Strategy) (closes : List ℚ),
      closes.length < 50 → run_strategy sqrtFn strategy closes = some [] := by
  intro sqrtFn strategy closes h
  simp [run_strategy, h]

/-! ## Claim C2: second comparison operand failure semantics -/

/-- C2 counterexample: a `greater_than` rule whose second operand key
`"FOO"` resolves to nothing does NOT return "missing indicator2 data": the
code falls back to comparing against the literal constant (default 0) and
here triggers a BUY.  The claim requires a non-triggered result for this
input. -/
theorem C2_unresolved_ind2_counterexample :
    evaluate_rule
      { condition := "greater_than", ind1 := "CLOSE", ind2 := some "FOO",
        direction := TradeDirection.BUY } [] [1]
      = some { triggered := true, direction := some TradeDirection.BUY,
               reason := "CLOSE (1.00) > 0.00" } := by
  simp [evaluate_rule, get_series, mkCompare, fmt2, pyIdx, pyStartsWith,
    charsStartWith, round_eq]
  rw [show ⌊(2⁻¹ : ℚ)⌋ = 0 from by norm_num]
  norm_num
  rfl

/-- `mkCompare` never yields the "Missing indicator2 data" result: its
non-triggered branch carries reason "Condition not met" and its triggered
branches have `triggered = true`. -/
theorem mkCompare_ne_missing (rule : Rule) (cv tv : ℚ) :
    mkCompare rule cv tv
      ≠ { triggered := false, direction := none,
          reason := "Missing indicator2 data",
          strategy_id := "", strategy_name := "" } := by
  unfold mkCompare
  split_ifs <;> simp

/-- When both operand series of a `greater_than`/`less_than` rule resolve and
are defined at the latest index, `evaluate_rule` reduces to `mkCompare` on
the two values. -/
theorem evaluate_rule_compare_eq (rule : Rule) (indicators : IndMap)
    (closes : List ℚ) (k2 : String) (s s2 : List (Option ℚ)) (cv tv : ℚ)
    (hcond : rule.condition = "greater_than" ∨ rule.condition = "less_than")
    (hk2 : rule.ind2 = some k2) (hk2e : k2 ≠ "") (hk2c : k2 ≠ "CLOSE")
    (hs : get_series rule.ind1 indicators closes = some s)
    (hcv : pyIdx s ((closes.length : ℤ) - 1) = some (some cv))
    (hs2 : get_series k2 indicators closes = some s2) (hs2ne : s2 ≠ [])
    (htv : pyIdx s2 ((closes.length : ℤ) - 1) = some (some tv)) :
    evaluate_rule rule indicators closes = some (mkCompare rule cv tv) := by
  rcases hcond with hc | hc <;>
    simp [evaluate_rule, hc, hk2, hs, hcv, hs2, hs2ne, htv, hk2e, hk2c]

/-- C2 (amended): under a `greater_than`/`less_than` rule whose first operand
resolves and is defined at the latest index, the "Missing indicator2 data"
failure occurs exactly when (iff) the second operand key is present, not
empty, not `"CLOSE"`, and resolves to a nonempty series whose latest entry is
the undefined marker.  In every other situation involving the second operand
— the key absent, empty, or `"CLOSE"`, the key unresolvable, or the key
resolving to an empty list — the rule does not fail but falls back to
comparing against the rule's literal constant (default 0). -/
theorem evaluate_rule_second_operand (rule : Rule) (indicators : IndMap)
    (closes : List ℚ) (s : List (Option ℚ)) (cv : ℚ)
    (hcond : rule.condition = "greater_than" ∨ rule.condition = "less_than")
    (hs : get_series rule.ind1 indicators closes = some s)
    (hcv : pyIdx s ((closes.length : ℤ) - 1) = some (some cv)) :
    (evaluate_rule rule indicators closes
        = some { triggered := false, direction := none,
                 reason := "Missing indicator2 data",
                 strategy_id := "", strategy_name := "" }
      ↔ ∃ k2 s2, rule.ind2 = some k2 ∧ k2 ≠ "" ∧ k2 ≠ "CLOSE" ∧
          get_series k2 indicators closes = some s2 ∧ s2 ≠ [] ∧
          pyIdx s2 ((closes.length : ℤ) - 1) = some none) ∧
    ((rule.ind2 = none ∨ rule.ind2 = some "" ∨ rule.ind2 = some "CLOSE" ∨
        (∃ k2, rule.ind2 = some k2 ∧
          get_series k2 indicators closes = none) ∨
        (∃ k2, rule.ind2 = some k2 ∧ k2 ≠ "" ∧ k2 ≠ "CLOSE" ∧
          get_series k2 indicators closes = some [])) →
      evaluate_rule rule indicators closes
        = some (mkCompare rule cv (rule.value.getD 0))) := by
  constructor
  · constructor
    · intro hres
      rcases hi2 : rule.ind2 with _ | k2
      · have he : evaluate_rule rule indicators closes
            = some (mkCompare rule cv (rule.value.getD 0)) := by
          rcases hcond with hc | hc <;> simp [evaluate_rule, hc, hi2, hs, hcv]
        rw [he] at hres
        injection hres with hres
        exact absurd hres (mkCompare_ne_missing rule cv _)
      · by_cases hk2e : k2 = ""
        · subst hk2e
          have he : evaluate_rule rule indicators closes
              = some (mkCompare rule cv (rule.value.getD 0)) := by
            rcases hcond with hc | hc <;> simp [evaluate_rule, hc, hi2, hs, hcv]
          rw [he] at hres
          injection hres with hres
          exact absurd hres (mkCompare_ne_missing rule cv _)
        · by_cases hk2c : k2 = "CLOSE"
          · subst hk2c
            have he : evaluate_rule rule indicators closes
                = some (mkCompare rule cv (rule.value.getD 0)) := by
              rcases hcond with hc | hc <;>
                simp [evaluate_rule, hc, hi2, hs, hcv]
            rw [he] at hres
            injection hres with hres
            exact absurd hres (mkCompare_ne_missing rule cv _)
          · rcases hg : get_series k2 indicators closes with _ | s2
            · have he : evaluate_rule rule indicators closes
                  = some (mkCompare rule cv (rule.value.getD 0)) := by
                rcases hcond with hc | hc <;>
                  simp [evaluate_rule, hc, hi2, hs, hcv, hg, hk2e, hk2c]
              rw [he] at hres
              injection hres with hres
              exact absurd hres (mkCompare_ne_missing rule cv _)
            · rcases s2 with _ | ⟨x, xs⟩
              · have he : evaluate_rule rule indicators closes
                    = some (mkCompare rule cv (rule.value.getD 0)) := by
                  rcases hcond with hc | hc <;>
                    simp [evaluate_rule, hc, hi2, hs, hcv, hg, hk2e, hk2c]
                rw [he] at hres
                injection hres with hres
                exact absurd hres (mkCompare_ne_missing rule cv _)
              · rcases hpy : pyIdx (x :: xs) ((closes.length : ℤ) - 1)
                    with _ | v
                · have he : evaluate_rule rule indicators closes = none := by
                    rcases hcond with hc | hc <;>
                      simp [evaluate_rule, hc, hi2, hs, hcv, hg, hpy,
                        hk2e, hk2c]
                  rw [he] at hres
                  simp at hres
                · rcases v with _ | tv
                  · exact ⟨k2, x :: xs, rfl, hk2e, hk2c, hg, by simp, hpy⟩
                  · have he := evaluate_rule_compare_eq rule indicators closes
                      k2 s (x :: xs) cv tv hcond hi2 hk2e hk2c hs hcv hg
                      (by simp) hpy
                    rw [he] at hres
                    injection hres with hres
                    exact absurd hres (mkCompare_ne_missing rule cv tv)
    · rintro ⟨k2, s2, hi2, hk2e, hk2c, hg, hs2ne, hpy⟩
      rcases hcond with hc | hc <;>
        simp [evaluate_rule, hc, hi2, hs, hcv, hg, hs2ne, hpy, hk2e, hk2c]
  · rintro (hi2 | hi2 | hi2 | ⟨k2, hi2, hg⟩ | ⟨k2, hi2, hk2e, hk2c, hg⟩)
    · rcases hcond with hc | hc <;> simp [evaluate_rule, hc, hi2, hs, hcv]
    · rcases hcond with hc | hc <;> simp [evaluate_rule, hc, hi2, hs, hcv]
    · rcases hcond with hc | hc <;> simp [evaluate_rule, hc, hi2, hs, hcv]
    · rcases hcond with hc | hc <;> by_cases hk2e : k2 = "" <;>
        by_cases hk2c : k2 = "CLOSE" <;>
        simp [evaluate_rule, hc, hi2, hs, hcv, hg, hk2e, hk2c]
    · rcases hcond with hc | hc <;>
        simp [evaluate_rule, hc, hi2, hs, hcv, hg, hk2e, hk2c]

/-- C2 witness: a second operand resolving to `[none]` (undefined at the
latest index) produces the "Missing indicator2 data" result, and an
unresolvable second operand key falls back to the constant comparison. -/
theorem evaluate_rule_second_operand_witness :
    evaluate_rule
      { condition := "greater_than", ind1 := "CLOSE", ind2 := some "X",
        direction := TradeDirection.BUY }
      [("X", [("main", [none])])] [1]
      = some { triggered := false, direction := none,
               reason := "Missing indicator2 data",
               strategy_id := "", strategy_name := "" } ∧
    evaluate_rule
      { condition := "greater_than", ind1 := "CLOSE", ind2 := some "FOO",
        direction := TradeDirection.BUY } [] [1]
      = some (mkCompare
          { condition := "greater_than", ind1 := "CLOSE", ind2 := some "FOO",
            direction := TradeDirection.BUY } 1 0) := by
  constructor
  · exact ((evaluate_rule_second_operand
      { condition := "greater_than", ind1 := "CLOSE", ind2 := some "X",
        direction := TradeDirection.BUY }
      [("X", [("main", [none])])] [1] [some 1] 1
      (Or.inl rfl) (by decide) (by decide)).1).mpr
      ⟨"X", [none], rfl, by decide, by decide, by decide, by decide,
        by decide⟩
  · exact (evaluate_rule_second_operand
      { condition := "greater_than", ind1 := "CLOSE", ind2 := some "FOO",
        direction := TradeDirection.BUY }
      [] [1] [some 1] 1
      (Or.inl rfl) (by decide) (by decide)).2
      (Or.inr (Or.inr (Or.inr (Or.inl ⟨"FOO", rfl, by decide⟩))))

/-! ## Claim C4: RSI range -/

theorem rsiVal_bounds (g l : ℚ) (hg : 0 ≤ g) (hl : 0 ≤ l) :
    0 ≤ rsiVal g l ∧ rsiVal g l ≤ 100 := by
  unfold rsiVal
  split
  · norm_num
  · rename_i hne
    have hrs : 0 ≤ g / l := div_nonneg hg hl
    have hd : (0:ℚ) < 1 + g / l := by linarith
    have h1 : 100 / (1 + g / l) ≤ 100 := div_le_self (by norm_num) (by linarith)
    have h2 : 0 ≤ 100 / (1 + g / l) := div_nonneg (by norm_num) hd.le
    constructor <;> linarith

theorem rsiLoop_mem (p : ℕ) (hp : 1 ≤ p) :
    ∀ (ds : List ℚ) (g l : ℚ), 0 ≤ g → 0 ≤ l →
      ∀ x : ℚ, some x ∈ rsiLoop p g l ds → 0 ≤ x ∧ x ≤ 100 := by
  intro ds
  induction ds with
  | nil =>
    intro g l _ _ x hx
    simp [rsiLoop] at hx
  | cons ch rest ih =>
    intro g l hg hl x hx
    have hx1 : (0:ℚ) ≤ (p:ℚ) - 1 := by
      have h1 : (1:ℚ) ≤ (p:ℚ) := by exact_mod_cast hp
      linarith
    have hppos : (0:ℚ) ≤ (p:ℚ) := by positivity
    have hg' : 0 ≤ (g * ((p:ℚ) - 1) + max ch 0) / (p:ℚ) :=
      div_nonneg (add_nonneg (mul_nonneg hg hx1) (le_max_right ch 0)) hppos
    have hl' : 0 ≤ (l * ((p:ℚ) - 1) + max (-ch) 0) / (p:ℚ) :=
      div_nonneg (add_nonneg (mul_nonneg hl hx1) (le_max_right (-ch) 0)) hppos
    rw [rsiLoop] at hx
    rcases List.mem_cons.mp hx with he | hx
    · have hxe : x = rsiVal ((g * ((p:ℚ) - 1) + max ch 0) / (p:ℚ))
          ((l * ((p:ℚ) - 1) + max (-ch) 0) / (p:ℚ)) := by
        injection he
      rw [hxe]
      exact rsiVal_bounds _ _ hg' hl'
    · exact ih _ _ hg' hl' x hx

/-- C4: every defined entry of the RSI output lies in `[0, 100]`, for every
input sequence and period, under exact rational arithmetic (the
`avg_loss = 0` branches yield exactly 100). -/
theorem calculate_rsi_range (closes : List ℚ) (period : ℤ) :
    ∀ i x, (calculate_rsi closes period).get? i = some (some x) →
      0 ≤ x ∧ x ≤ 100 := by
  intro i x h
  unfold calculate_rsi at h
  split at h
  · have hm := List.get?_mem h
    have := List.eq_of_mem_replicate hm
    simp at this
  · rename_i hguard
    have hp1 : 1 ≤ period.toNat := by omega
    dsimp only at h
    have hm := List.get?_mem h
    rw [List.mem_append] at hm
    have hg0 : 0 ≤ (((diffs closes).take period.toNat).map (fun ch => max ch 0)).sum := by
      apply List.sum_nonneg
      intro y hy
      rcases List.mem_map.mp hy with ⟨ch, _, rfl⟩
      exact le_max_right ch 0
    have hl0 : 0 ≤ (((diffs closes).take period.toNat).map (fun ch => max (-ch) 0)).sum := by
      apply List.sum_nonneg
      intro y hy
      rcases List.mem_map.mp hy with ⟨ch, _, rfl⟩
      exact le_max_right (-ch) 0
    have hppos : (0:ℚ) ≤ (period.toNat : ℚ) := by positivity
    rcases hm with hm | hm
    · have := List.eq_of_mem_replicate hm
      simp at this
    · rcases List.mem_cons.mp hm with he | hm
      · have hxe : x = rsiVal
            ((((diffs closes).take period.toNat).map (fun ch => max ch 0)).sum
              / (period.toNat : ℚ))
            ((((diffs closes).take period.toNat).map (fun ch => max (-ch) 0)).sum
              / (period.toNat : ℚ)) := by
          injection he
        rw [hxe]
        exact rsiVal_bounds _ _ (div_nonneg hg0 hppos) (div_nonneg hl0 hppos)
      · exact rsiLoop_mem period.toNat hp1 _ _ _
          (div_nonneg hg0 hppos) (div_nonneg hl0 hppos) x hm

/-- C4 witness: RSI of the rising sequence `[1, 2, 3]` with period 2 is
defined at index 2, equals 100, and is within the bounds. -/
theorem calculate_rsi_range_witness :
    (calculate_rsi [1, 2, 3] 2).get? 2 = some (some 100) ∧
    0 ≤ (100:ℚ) ∧ (100:ℚ) ≤ 100 := by
  have hget : (calculate_rsi [1, 2, 3] 2).get? 2 = some (some 100) := by
    simp [calculate_rsi, diffs, rsiLoop, rsiVal]
    norm_num
  exact ⟨hget, calculate_rsi_range [1, 2, 3] 2 2 100 hget⟩

/-- C9 witness: the first built-in strategy on a 3-element closes list. -/
theorem run_strategy_insufficient_history_witness :
    run_strategy id
      { id := "11111111-1111-1111-1111-111111111111"
        name := "SMA Trend Strategy"
        indicators := [{ type := "SMA", period := some 20 }]
        rules := [] }
      [1, 2, 3] = some [] := by
  exact run_strategy_insufficient_history id _ _ (by decide)

/-! ## Claim C10: emitted results are triggered, directed and stamped -/

theorem mkCompare_shape (rule : Rule) (cv tv : ℚ)
    (h : (mkCompare rule cv tv).triggered = true) :
    (mkCompare rule cv tv).direction = some rule.direction ∧
    (mkCompare rule cv tv).strategy_id = "" ∧
    (mkCompare rule cv tv).strategy_name = "" := by
  unfold mkCompare at h ⊢
  split_ifs at h ⊢ <;> simp_all

theorem evaluate_rule_shape (rule : Rule) (indicators : IndMap)
    (closes : List ℚ) (r : SignalResult)
    (h : evaluate_rule rule indicators closes = some r)
    (htrig : r.triggered = true) :
    r.direction = some rule.direction ∧
    r.strategy_id = "" ∧ r.strategy_name = "" := by
  unfold evaluate_rule at h
  dsimp only at h
  repeat' split at h
  all_goals
    first
    | (injection h with h; subst h;
       first
       | exact mkCompare_shape _ _ _ htrig
       | exact ⟨rfl, rfl, rfl⟩
       | simp_all)
    | injection h

theorem evalRules_shape (strategy : Strategy) (indicators : IndMap)
    (closes : List ℚ) :
    ∀ (rules : List Rule) (acc res : List SignalResult),
      (rules.foldlM (fun acc rule => do
          let result ← evaluate_rule rule indicators closes
          if result.triggered then
            pure (acc ++ [{ result with strategy_id := strategy.id,
                                        strategy_name := strategy.name }])
          else pure acc) acc) = some res →
      (∀ r ∈ acc, r.triggered = true ∧ (∃ d, r.direction = some d) ∧
        r.strategy_id = strategy.id ∧ r.strategy_name = strategy.name) →
      ∀ r ∈ res, r.triggered = true ∧ (∃ d, r.direction = some d) ∧
        r.strategy_id = strategy.id ∧ r.strategy_name = strategy.name := by
  intro rules
  induction rules with
  | nil =>
    intro acc res h hacc
    simp only [List.foldlM_nil] at h
    injection h with h
    subst h
    exact hacc
  | cons rule rules ih =>
    intro acc res h hacc
    rw [List.foldlM_cons] at h
    rcases hev : evaluate_rule rule indicators closes with _ | result
    · simp only [hev, Option.bind_eq_bind, Option.none_bind] at h
      exact absurd h (by simp)
    · rcases htr : result.triggered with _ | _ <;>
        simp only [hev, htr, Option.bind_eq_bind, Option.some_bind,
          Bool.false_eq_true, if_false, if_true, pure_bind] at h
      · exact ih acc res h hacc
      · refine ih _ res h ?_
        intro r hr
        rcases List.mem_append.mp hr with hr | hr
        · exact hacc r hr
        · rcases List.mem_singleton.mp hr with rfl
          obtain ⟨hdir, _, _⟩ := evaluate_rule_shape rule indicators closes
            result hev htr
          exact ⟨rfl, ⟨rule.direction, hdir⟩, rfl, rfl⟩

theorem run_strategy_shape (sqrtFn : ℚ → ℚ) (strategy : Strategy)
    (closes : List ℚ) (res : List SignalResult)
    (h : run_strategy sqrtFn strategy closes = some res) :
    ∀ r ∈ res, r.triggered = true ∧ (∃ d, r.direction = some d) ∧
      r.strategy_id = strategy.id ∧ r.strategy_name = strategy.name := by
  unfold run_strategy at h
  split at h
  · injection h with h
    subst h
    intro r hr
    simp at hr
  · exact evalRules_shape strategy _ closes strategy.rules [] res h
      (by intro r hr; simp at hr)

/-- C10: every `SignalResult` emitted by `run_strategy` on a built-in
strategy, and hence by `run_all_strategies`, has `triggered = true`, a
direction that is exactly BUY or SELL, and carries the originating strategy's
id and name; non-triggered evaluations are filtered out. -/
theorem run_strategy_results_invariant :
    (∀ strategy ∈ BUILT_IN_STRATEGIES, ∀ (sqrtFn : ℚ → ℚ) (closes : List ℚ)
        (res : List SignalResult),
      run_strategy sqrtFn strategy closes = some res →
      ∀ r ∈ res, r.triggered = true ∧
        (r.direction = some TradeDirection.BUY ∨
          r.direction = some TradeDirection.SELL) ∧
        r.strategy_id = strategy.id ∧ r.strategy_name = strategy.name) ∧
    (∀ (sqrtFn : ℚ → ℚ) (closes : List ℚ) (res : List SignalResult),
      run_all_strategies sqrtFn closes = some res →
      ∀ r ∈ res, r.triggered = true ∧
        (r.direction = some TradeDirection.BUY ∨
          r.direction = some TradeDirection.SELL) ∧
        ∃ strategy, strategy ∈ BUILT_IN_STRATEGIES ∧
          r.strategy_id = strategy.id ∧ r.strategy_name = strategy.name) := by
  have key : ∀ (sqrtFn : ℚ → ℚ) (strategy : Strategy) (closes : List ℚ)
      (res : List SignalResult), run_strategy sqrtFn strategy closes = some res →
      ∀ r ∈ res, r.triggered = true ∧
        (r.direction = some TradeDirection.BUY ∨
          r.direction = some TradeDirection.SELL) ∧
        r.strategy_id = strategy.id ∧ r.strategy_name = strategy.name := by
    intro sqrtFn strategy closes res h r hr
    obtain ⟨htr, ⟨d, hd⟩, hid, hname⟩ :=
      run_strategy_shape sqrtFn strategy closes res h r hr
    refine ⟨htr, ?_, hid, hname⟩
    cases d
    · exact Or.inl hd
    · exact Or.inr hd
  constructor
  · intro strategy _ sqrtFn closes res h
    exact key sqrtFn strategy closes res h
  · intro sqrtFn closes res h
    unfold run_all_strategies at h
    have aux : ∀ (strats : List Strategy) (acc res : List SignalResult),
        (strats.foldlM (fun acc strategy => do
            let results ← run_strategy sqrtFn strategy closes
            pure (acc ++ results)) acc) = some res →
        (∀ r ∈ acc, r.triggered = true ∧
          (r.direction = some TradeDirection.BUY ∨
            r.direction = some TradeDirection.SELL) ∧
          ∃ strategy, strategy ∈ BUILT_IN_STRATEGIES ∧
            r.strategy_id = strategy.id ∧ r.strategy_name = strategy.name) →
        (∀ s ∈ strats, s ∈ BUILT_IN_STRATEGIES) →
        ∀ r ∈ res, r.triggered = true ∧
          (r.direction = some TradeDirection.BUY ∨
            r.direction = some TradeDirection.SELL) ∧
          ∃ strategy, strategy ∈ BUILT_IN_STRATEGIES ∧
            r.strategy_id = strategy.id ∧ r.strategy_name = strategy.name := by
      intro strats
      induction strats with
      | nil =>
        intro acc res h hacc _
        simp only [List.foldlM_nil] at h
        injection h with h
        subst h
        exact hacc
      | cons s ss ih =>
        intro acc res h hacc hsub
        rw [List.foldlM_cons] at h
        rcases hrun : run_strategy sqrtFn s closes with _ | results
        · simp only [hrun, Option.bind_eq_bind, Option.none_bind] at h
          exact absurd h (by simp)
        · simp only [hrun, Option.bind_eq_bind, Option.some_bind, pure_bind] at h
          refine ih _ res h ?_ (fun t ht => hsub t (List.mem_cons_of_mem s ht))
          intro r hr
          rcases List.mem_append.mp hr with hr | hr
          · exact hacc r hr
          · obtain ⟨htr, hdir, hid, hname⟩ := key sqrtFn s closes results hrun r hr
            exact ⟨htr, hdir, s, hsub s (List.mem_cons_self s ss), hid, hname⟩
    exact aux BUILT_IN_STRATEGIES [] res h (by intro r hr; simp at hr)
      (fun s hs => hs)

/-- C10 witness: the first built-in strategy on the empty closes list — both
runner entry points succeed with the empty (vacuously invariant) result
list. -/
theorem run_strategy_results_invariant_witness :
    smaTrendStrategy ∈ BUILT_IN_STRATEGIES ∧
    run_strategy id smaTrendStrategy [] = some [] ∧
    run_all_strategies id [] = some [] := by
  have hmem : smaTrendStrategy ∈ BUILT_IN_STRATEGIES := List.mem_cons_self _ _
  have h1 : run_strategy id smaTrendStrategy [] = some [] := rfl
  have h2 : run_all_strategies id ([] : List ℚ) = some [] := rfl
  have hc1 := run_strategy_results_invariant.1 _ hmem id [] [] h1
  have hc2 := run_strategy_results_invariant.2 id [] [] h2
  exact ⟨hmem, h1, h2⟩

/-! ## Claim C3: the evaluation pass is total -/

theorem emaRun_length (k : ℚ) : ∀ (rest : List ℚ) (prev : ℚ),
    (emaRun k prev rest).length = rest.length := by
  intro rest
  induction rest with
  | nil => intro prev; simp [emaRun]
  | cons price rs ih => intro prev; simp [emaRun, ih]

theorem diffs_length : ∀ l : List ℚ, (diffs l).length = l.length - 1 := by
  intro l
  induction l with
  | nil => simp [diffs]
  | cons a t ih =>
    cases t with
    | nil => simp [diffs]
    | cons b rest =>
      simp only [diffs, List.length_cons] at ih ⊢
      omega

theorem rsiLoop_length (p : ℕ) : ∀ (ds : List ℚ) (g l : ℚ),
    (rsiLoop p g l ds).length = ds.length := by
  intro ds
  induction ds with
  | nil => intro g l; simp [rsiLoop]
  | cons ch rest ih => intro g l; simp [rsiLoop, ih]

theorem calculate_sma_length (data : List ℚ) (period : ℤ) :
    (calculate_sma data period).length = data.length := by
  unfold calculate_sma
  split <;> simp

theorem calculate_ema_length (data : List ℚ) (period : ℤ) :
    (calculate_ema data period).length = data.length := by
  unfold calculate_ema
  split
  · simp
  · rw [emaGo_length]

theorem calculate_rsi_length (closes : List ℚ) (period : ℤ) :
    (calculate_rsi closes period).length = closes.length := by
  unfold calculate_rsi
  split
  · simp
  · rename_i hguard
    dsimp only
    rw [List.length_append, List.length_replicate, List.length_cons,
        rsiLoop_length, List.length_drop, diffs_length]
    omega

theorem calculate_sma_defined (data : List ℚ) (period : ℤ)
    (hp : 0 < period) (hle : period ≤ (data.length : ℤ)) (i : ℕ)
    (h1 : period.toNat - 1 ≤ i) (h2 : i < data.length) :
    ∃ v, (calculate_sma data period).get? i = some (some v) := by
  unfold calculate_sma
  rw [if_neg (by omega), rangeMap_get? _ _ _ h2, if_neg (by omega)]
  exact ⟨_, rfl⟩

theorem calculate_ema_defined (data : List ℚ) (period : ℤ)
    (hp : 0 < period) (hle : period ≤ (data.length : ℤ)) (i : ℕ)
    (h1 : period.toNat - 1 ≤ i) (h2 : i < data.length) :
    ∃ v, (calculate_ema data period).get? i = some (some v) := by
  have hp1 : 1 ≤ period.toNat := by omega
  have hpn : period.toNat ≤ data.length := by omega
  rw [calculate_ema_decomp data period hp hle]
  have hrl : (List.replicate (period.toNat - 1) (none : Option ℚ)).length
      = period.toNat - 1 := List.length_replicate _ _
  rcases Nat.eq_or_lt_of_le h1 with heq | hlt
  · rw [List.get?_append_right (by omega), hrl, ← heq, Nat.sub_self,
        List.get?_cons_zero]
    exact ⟨_, rfl⟩
  · rw [List.get?_append_right (by omega), hrl,
        show i - (period.toNat - 1) = (i - period.toNat) + 1 by omega,
        List.get?_cons_succ, List.get?_map]
    have hlen : i - period.toNat
        < (emaRun (2 / ((period : ℚ) + 1))
            ((data.take period.toNat).sum / (period.toNat : ℚ))
            (data.drop period.toNat)).length := by
      rw [emaRun_length, List.length_drop]
      omega
    rw [List.get?_eq_get hlen]
    exact ⟨_, rfl⟩

theorem pyIdx_get (s : List (Option ℚ)) (n : ℕ) (hn : 0 < n) :
    pyIdx s ((n : ℤ) - 1) = s.get? (n - 1) := by
  rw [pyIdx_ofNonneg _ _ (by omega)]
  congr 1
  omega

theorem foldRules_total (strategy : Strategy) (indicators : IndMap)
    (closes : List ℚ) :
    ∀ (rules : List Rule),
      (∀ rule ∈ rules, ∃ r, evaluate_rule rule indicators closes = some r) →
      ∀ acc, ∃ res,
        (rules.foldlM (fun acc rule => do
            let result ← evaluate_rule rule indicators closes
            if result.triggered then
              pure (acc ++ [{ result with strategy_id := strategy.id,
                                          strategy_name := strategy.name }])
            else pure acc) acc) = some res := by
  intro rules
  induction rules with
  | nil =>
    intro _ acc
    exact ⟨acc, rfl⟩
  | cons rule rules ih =>
    intro hall acc
    obtain ⟨r, hr⟩ := hall rule (List.mem_cons_self _ _)
    have hall' := fun rule h => hall rule (List.mem_cons_of_mem _ h)
    rw [List.foldlM_cons]
    rcases htr : r.triggered with _ | _ <;>
      simp only [hr, htr, Option.bind_eq_bind, Option.some_bind,
        Bool.false_eq_true, if_false, if_true, pure_bind]
    · exact ih hall' acc
    · exact ih hall' _

theorem foldStrats_total (sqrtFn : ℚ → ℚ) (closes : List ℚ) :
    ∀ (strats : List Strategy),
      (∀ s ∈ strats, ∃ r, run_strategy sqrtFn s closes = some r) →
      ∀ acc, ∃ res,
        (strats.foldlM (fun acc strategy => do
            let results ← run_strategy sqrtFn strategy closes
            pure (acc ++ results)) acc) = some res := by
  intro strats
  induction strats with
  | nil =>
    intro _ acc
    exact ⟨acc, rfl⟩
  | cons s ss ih =>
    intro hall acc
    obtain ⟨r, hr⟩ := hall s (List.mem_cons_self _ _)
    rw [List.foldlM_cons]
    simp only [hr, Option.bind_eq_bind, Option.some_bind, pure_bind]
    exact ih (fun t h => hall t (List.mem_cons_of_mem _ h)) _

theorem get_series_CLOSE (indicators : IndMap) (closes : List ℚ) :
    get_series "CLOSE" indicators closes = some (closes.map some) := by
  simp [get_series]

theorem map_some_get? (closes : List ℚ) (i : ℕ) (h : i < closes.length) :
    (closes.map some).get? i = some (some (closes.get ⟨i, h⟩)) := by
  rw [List.get?_map, List.get?_eq_get h]
  rfl

theorem run_strategy_sma_total (sqrtFn : ℚ → ℚ) (closes : List ℚ) :
    ∃ res, run_strategy sqrtFn smaTrendStrategy closes = some res := by
  by_cases hlen : closes.length < 50
  · exact ⟨[], by simp [run_strategy, hlen]⟩
  · push_neg at hlen
    unfold run_strategy
    rw [if_neg (by omega)]
    have hind : buildIndicators sqrtFn smaTrendStrategy closes
        = [("SMA_20", [("main", calculate_sma closes 20)])] := rfl
    rw [hind]
    have hn : 0 < closes.length := by omega
    have hcv := map_some_get? closes (closes.length - 1) (by omega)
    have hs2ne : calculate_sma closes 20 ≠ [] := by
      apply List.length_pos.mp
      rw [calculate_sma_length]
      omega
    obtain ⟨v, hv⟩ := calculate_sma_defined closes 20 (by norm_num)
      (by exact_mod_cast by omega) (closes.length - 1) (by omega) (by omega)
    unfold evalRules
    apply foldRules_total
    intro rule hrule
    have hrules : smaTrendStrategy.rules =
        [ { condition := "greater_than", ind1 := "CLOSE", ind2 := some "SMA_20",
            direction := TradeDirection.BUY }
        , { condition := "less_than", ind1 := "CLOSE", ind2 := some "SMA_20",
            direction := TradeDirection.SELL } ] := rfl
    rw [hrules] at hrule
    rcases List.mem_cons.mp hrule with rfl | hrule
    · exact ⟨_, evaluate_rule_compare_eq _ _ closes "SMA_20" (closes.map some)
        (calculate_sma closes 20) _ v (Or.inl rfl) rfl (by decide) (by decide)
        (get_series_CLOSE _ closes)
        (by rw [pyIdx_get _ closes.length hn]; exact hcv)
        rfl hs2ne
        (by rw [pyIdx_get _ closes.length hn]; exact hv)⟩
    rcases List.mem_cons.mp hrule with rfl | hrule
    · exact ⟨_, evaluate_rule_compare_eq _ _ closes "SMA_20" (closes.map some)
        (calculate_sma closes 20) _ v (Or.inr rfl) rfl (by decide) (by decide)
        (get_series_CLOSE _ closes)
        (by rw [pyIdx_get _ closes.length hn]; exact hcv)
        rfl hs2ne
        (by rw [pyIdx_get _ closes.length hn]; exact hv)⟩
    simp at hrule

theorem run_strategy_ema_total (sqrtFn : ℚ → ℚ) (closes : List ℚ) :
    ∃ res, run_strategy sqrtFn emaTrendStrategy closes = some res := by
  by_cases hlen : closes.length < 50
  · exact ⟨[], by simp [run_strategy, hlen]⟩
  · push_neg at hlen
    unfold run_strategy
    rw [if_neg (by omega)]
    have hind : buildIndicators sqrtFn emaTrendStrategy closes
        = [("EMA_20", [("main", calculate_ema closes 20)])] := rfl
    rw [hind]
    have hn : 0 < closes.length := by omega
    have hcv := map_some_get? closes (closes.length - 1) (by omega)
    have hs2ne : calculate_ema closes 20 ≠ [] := by
      apply List.length_pos.mp
      rw [calculate_ema_length]
      omega
    obtain ⟨v, hv⟩ := calculate_ema_defined closes 20 (by norm_num)
      (by exact_mod_cast by omega) (closes.length - 1) (by omega) (by omega)
    unfold evalRules
    apply foldRules_total
    intro rule hrule
    have hrules : emaTrendStrategy.rules =
        [ { condition := "greater_than", ind1 := "CLOSE", ind2 := some "EMA_20",
            direction := TradeDirection.BUY }
        , { condition := "less_than", ind1 := "CLOSE", ind2 := some "EMA_20",
            direction := TradeDirection.SELL } ] := rfl
    rw [hrules] at hrule
    rcases List.mem_cons.mp hrule with rfl | hrule
    · exact ⟨_, evaluate_rule_compare_eq _ _ closes "EMA_20" (closes.map some)
        (calculate_ema closes 20) _ v (Or.inl rfl) rfl (by decide) (by decide)
        (get_series_CLOSE _ closes)
        (by rw [pyIdx_get _ closes.length hn]; exact hcv)
        rfl hs2ne
        (by rw [pyIdx_get _ closes.length hn]; exact hv)⟩
    rcases List.mem_cons.mp hrule with rfl | hrule
    · exact ⟨_, evaluate_rule_compare_eq _ _ closes "EMA_20" (closes.map some)
        (calculate_ema closes 20) _ v (Or.inr rfl) rfl (by decide) (by decide)
        (get_series_CLOSE _ closes)
        (by rw [pyIdx_get _ closes.length hn]; exact hcv)
        rfl hs2ne
        (by rw [pyIdx_get _ closes.length hn]; exact hv)⟩
    simp at hrule

/-- C3: the whole evaluation pass never crashes: every indicator series has
the same length as the input closes (so every index the engine touches is in
bounds), and `run_all_strategies` returns a well-formed result (`some`, never
the crash marker `none`) for every closes list and every interpretation of
`math.sqrt`. -/
theorem run_all_strategies_total :
    (∀ (data : List ℚ) (period : ℤ),
      (calculate_sma data period).length = data.length) ∧
    (∀ (data : List ℚ) (period : ℤ),
      (calculate_ema data period).length = data.length) ∧
    (∀ (closes : List ℚ) (period : ℤ),
      (calculate_rsi closes period).length = closes.length) ∧
    (∀ (sqrtFn : ℚ → ℚ) (data : List ℚ) (period : ℤ) (sd : ℚ),
      (calculate_bollinger_bands sqrtFn data period sd).map
          (fun pair => pair.2.length)
        = [data.length, data.length, data.length]) ∧
    (∀ (sqrtFn : ℚ → ℚ) (closes : List ℚ),
      ∃ res, run_all_strategies sqrtFn closes = some res) := by
  refine ⟨calculate_sma_length, calculate_ema_length, calculate_rsi_length,
    ?_, ?_⟩
  · intro sqrtFn data period sd
    simp [calculate_bollinger_bands, calculate_sma_length]
  · intro sqrtFn closes
    unfold run_all_strategies
    apply foldStrats_total
    intro s hs
    rcases List.mem_cons.mp hs with rfl | hs
    · exact run_strategy_sma_total sqrtFn closes
    rcases List.mem_cons.mp hs with rfl | hs
    · exact run_strategy_ema_total sqrtFn closes
    simp at hs

end Insight
